import Mathlib

/-!
Verification development for the NonSTL containers.

Shallow embedding of `non_stl::vector` (src/NonSTL/containers/vector.h) and
`non_stl::circular_buffer` (same header, circular_buffer part) at the level of
values: the raw storage block is a total function `ℕ → α` (slots beyond the
constructed region hold the junk value `default`, standing for uninitialized
memory), `size_type` is `ℕ` with the 64-bit wrap written out explicitly at the
places the source can wrap, and element construction/destruction are value
writes (a destructor does not change the bits of a slot).  Every definition is
translated clause by clause from the C++ source; the source line numbers are
cited in the doc comments.
-/

namespace NonSTL

/-- `2 ^ 64`: one past the largest value of the 64-bit `size_type`. -/
def W : ℕ := 2 ^ 64

/-- The growth computation `(size_type)(beta * x)` with `beta = 2.0`
(vector.h:31).  For `x < 2 ^ 52` the double arithmetic is exact and the
truncating cast yields exactly `2 * x`, which is how it is modelled. -/
def betaMul (x : ℕ) : ℕ := 2 * x

/-- The error the spec calls BoundsError (the out-of-range exception the
header documents for `vector::at`). -/
inductive BoundsError
  | outOfRange

/-- `non_stl::vector<T>` (vector.h:27-280): `_capacity`, `_size` and the owned
block `_data`, which is a null pointer (`none`) in the moved-from state. -/
structure vector (α : Type) where
  capacity : ℕ
  size : ℕ
  data : Option (ℕ → α)

variable {α : Type}

/-- The storage block behind `_data`; dereferencing the null pointer of a
moved-from vector yields the junk value. -/
def vector.storageFn [Inhabited α] (v : vector α) : ℕ → α :=
  v.data.getD (fun _ => default)

/-- `_data[n]`, an unchecked slot read (`operator[]`, vector.h:679-689). -/
def vector.dataAt [Inhabited α] (v : vector α) (n : ℕ) : α :=
  v.storageFn n

/-- `_alloc.construct(_data + i, x)` / `_data[i] = x`: write one slot. -/
def vector.writeSlot [Inhabited α] (v : vector α) (i : ℕ) (x : α) : vector α :=
  { v with data := some (Function.update v.storageFn i x) }

/-- `vector::reallocate` (vector.h:1191-1207): allocate a fresh block of `cap`
slots (uninitialized, junk), `std::copy_n(_data, _size, cp)` when `_size > 0`,
free the old block, install the new one and set `_capacity = cap`.  `_size` is
untouched. -/
def vector.reallocate [Inhabited α] (v : vector α) (cap : ℕ) : vector α :=
  { v with
    data := some (fun i => if i < v.size then v.storageFn i else default)
    capacity := cap }

/-- `vector::push_back` (vector.h:1014-1024): reallocate to
`(size_type)(beta * _capacity)` when `_size == _capacity`, then construct at
`_size` and increment `_size`. -/
def vector.push_back [Inhabited α] (v : vector α) (val : α) : vector α :=
  let v1 := if v.size = v.capacity then v.reallocate (betaMul v.capacity) else v
  { v1.writeSlot v1.size val with size := v1.size + 1 }

/-- The default constructor (vector.h:514-521): `_capacity = 10`, `_size = 0`,
a freshly allocated (junk) block. -/
def vector.mkDefault [Inhabited α] : vector α :=
  ⟨10, 0, some (fun _ => default)⟩

/-- The fill constructor `vector(size)` (vector.h:523-533):
`_capacity = (size_type)(beta * size)`, `_size = size`, slots `[0, size)`
default-constructed. -/
def vector.mkSized [Inhabited α] (n : ℕ) : vector α :=
  ⟨betaMul n, n, some (fun _ => default)⟩

/-- The initializer-list constructor (vector.h:599-606):
`_capacity = (size_type)(beta * init.size())`, `_size = init.size()`, items
copied to `[0, size)`, the rest of the block junk. -/
def vector.mkList [Inhabited α] (l : List α) : vector α :=
  ⟨betaMul l.length, l.length, some (fun i => l.getD i default)⟩

/-- `vector::at` (vector.h:691-700).  The source tests `n >= _size`, but the
body of that branch is empty — the line `// throw out of range exception` is a
comment — so both paths fall through to `return _data[n]`.  The `Except`
result type exposes the error channel the header documents; the code never
uses it. -/
def vector.at_checked [Inhabited α] (v : vector α) (n : ℕ) : Except BoundsError α :=
  if n ≥ v.size then
    Except.ok (v.dataAt n)
  else
    Except.ok (v.dataAt n)

/-- The move constructor (vector.h:586-597): the pair (the new vector, what
the source is left as).  The new vector takes `_capacity`, `_size` and the
block pointer verbatim; the source is set to `capacity = 0`, `size = 0`,
`_data = nullptr`. -/
def vector.moveCtor (a : vector α) : vector α × vector α :=
  (⟨a.capacity, a.size, a.data⟩, ⟨0, 0, none⟩)

/-- `vector::clear` (vector.h:1158-1171): destruct the live elements (a value
no-op on the bits) and set `_size = 0`. -/
def vector.clear (v : vector α) : vector α :=
  { v with size := 0 }

/-- `vector::pop_back` (vector.h:1051-1058): destruct `_data[_size - 1]` and
decrement `_size`.  Precondition non-empty (on an empty vector the unsigned
decrement would wrap; no modelled call pops an empty vector). -/
def vector.pop_back (v : vector α) : vector α :=
  { v with size := v.size - 1 }

/-- `vector::pop_back_n` (vector.h:1209-1216): `pop_back()` n times. -/
def vector.pop_back_n (v : vector α) : ℕ → vector α
  | 0 => v
  | k + 1 => (v.pop_back).pop_back_n k

/-- A concrete vector in the state `size = 3`, `capacity = 4`, with slot 3
(one past the live region but inside the block) holding the previously popped
value 8 and slot 4 (one past the block) junk:
`vector<int> v(2); v.push_back(7); v.push_back(8); v.pop_back();`. -/
def demoSize3Cap4 : vector ℕ :=
  (((vector.mkSized 2 : vector ℕ).push_back 7).push_back 8).pop_back

/-- `vector::resize(n)` (vector.h:846-868): pop `_size - n` times when
`n < _size`; else just set `_size = n` when `n ≤ _capacity` (newly exposed
slots stay uninitialized); else reallocate to `n` and set `_size = n`. -/
def vector.resize [Inhabited α] (v : vector α) (n : ℕ) : vector α :=
  if n < v.size then v.pop_back_n (v.size - n)
  else if n ≤ v.capacity then { v with size := n }
  else { v.reallocate n with size := n }

/-- The fill loop of `vector::resize(n, val)` (vector.h:879-882):
`for (i; i < _size; ++i) construct(_data + i, val)`, modelled with a fuel
argument that bounds the trip count; each call passes fuel `_size`, which is
at least the number of iterations, so the modelled loop runs exactly as the
source does. -/
def fillLoop [Inhabited α] (val : α) : ℕ → vector α → ℕ → vector α
  | 0, v, _ => v
  | f + 1, v, i => if i < v.size then fillLoop val f (v.writeSlot i val) (i + 1) else v

/-- `vector::resize(n, val)` (vector.h:870-884): call `resize(n)`, then when
`n >= old_size` run the fill loop from `old_size - 1`.  Note the start index:
it is `old_size - 1`, not `old_size`, and `old_size - 1` is an unsigned
subtraction — for `old_size = 0` it wraps to `2^64 - 1`, so the loop condition
`i < _size` is false at once and nothing is filled. -/
def vector.resizeVal [Inhabited α] (v : vector α) (n : ℕ) (val : α) : vector α :=
  let old := v.size
  let v1 := v.resize n
  if n ≥ old then
    if old = 0 then v1 else fillLoop val v1.size v1 (old - 1)
  else v1

/-- The fill loop of `vector::assign(n, val)` (vector.h:986-990):
`for (i = 0; i < n; ++i) construct(_data + i, val)`; the first argument counts
the remaining iterations of this fixed-bound loop. -/
def constructN [Inhabited α] (val : α) : ℕ → vector α → ℕ → vector α
  | 0, v, _ => v
  | k + 1, v, i => constructN val k (v.writeSlot i val) (i + 1)

/-- `vector::assign(n, val)` (vector.h:971-991): `clear()`, reallocate to
`(size_type)(beta * n)` when `n >= _capacity`, set `_size = n`, fill. -/
def vector.assignFill [Inhabited α] (v : vector α) (n : ℕ) (val : α) : vector α :=
  let v0 := v.clear
  let v1 := if n ≥ v0.capacity then v0.reallocate (betaMul n) else v0
  constructN val n { v1 with size := n } 0

/-- Successive writes of a list's items at consecutive slots starting at `i`:
the population loops `copy_from_initializer_list` (vector.h:1218-1226) and
`_data[n++] = *it2` (vector.h:963-967). -/
def writeList [Inhabited α] : List α → vector α → ℕ → vector α
  | [], v, _ => v
  | x :: xs, v, i => writeList xs (v.writeSlot i x) (i + 1)

/-- `vector::assign(il)` (vector.h:993-1012): `clear()`, reallocate to
`(size_type)(beta * n)` when `n >= _capacity` where `n = il.size()`, set
`_size = n`, copy the list in. -/
def vector.assignList [Inhabited α] (v : vector α) (l : List α) : vector α :=
  let v0 := v.clear
  let v1 := if l.length ≥ v0.capacity then v0.reallocate (betaMul l.length) else v0
  writeList l { v1 with size := l.length } 0

/-- The iterator branch of `vector::assign(first, last)` (vector.h:948-968):
`n = get_iterator_diff(first, last)` (the range, modelled as a list),
reallocate when `n >= _capacity`, set `_size = n`, copy the range in. -/
def vector.assignRange [Inhabited α] (v : vector α) (l : List α) : vector α :=
  let v0 := v.clear
  let v1 := if l.length ≥ v0.capacity then v0.reallocate (betaMul l.length) else v0
  writeList l { v1 with size := l.length } 0

/-- The loop of `vector::shift_array` (vector.h:1228-1247), recursing on
`copy_from` (`copy_to` always equals `copy_from + n`):
`while (copy_from >= idx && !complete) { _data[copy_to--] = _data[copy_from];
if (copy_from == 0) complete = true; --copy_from; }`.  Note it starts at
`copy_from = _size`, one past the last live element. -/
def shiftLoop (n idx : ℕ) : ℕ → (ℕ → α) → (ℕ → α)
  | 0, d => if 0 < idx then d else Function.update d (0 + n) (d 0)
  | c + 1, d =>
      if c + 1 < idx then d
      else shiftLoop n idx c (Function.update d (c + 1 + n) (d (c + 1)))

/-- `vector::shift_array(n, idx)` (vector.h:1228-1247): run the shift loop
from `copy_from = _size`, then `_size += n`. -/
def vector.shift_array [Inhabited α] (v : vector α) (n idx : ℕ) : vector α :=
  { v with
    data := some (shiftLoop n idx v.size v.storageFn)
    size := v.size + n }

/-- One flattened iterator value of the `vector` iterator family
(vector.h:286-507): the raw pointer `_curr` is modelled as the pair of the
block under it (`mem`, total over `ℤ` so that `&_data[-1]` is representable)
and the offset `pos`; `isize` and `idx` are the `_size` and `_idx` members,
stored as their `size_type` bit patterns (so `rend()` holds `2^64 - 1` in
both). -/
structure vecIterator (α : Type) where
  mem : ℤ → α
  pos : ℤ
  isize : ℕ
  idx : ℕ

/-- The block of a vector as seen through a `T*`, with negative offsets
(reachable via `rend()`) reading junk. -/
def dataZ [Inhabited α] (v : vector α) : ℤ → α :=
  fun z => if z < 0 then default else v.storageFn z.toNat

/-- `vector::begin` (vector.h:753-757): `iterator(&_data[0], _size, 0)`. -/
def vector.beginIt [Inhabited α] (v : vector α) : vecIterator α :=
  ⟨dataZ v, 0, v.size, 0⟩

/-- `vector::end` (vector.h:771-775): `iterator(&_data[_size], _size, _size)`. -/
def vector.endIt [Inhabited α] (v : vector α) : vecIterator α :=
  ⟨dataZ v, (v.size : ℤ), v.size, v.size⟩

/-- `vector::rend` (vector.h:809-814):
`reverse_iterator(&_data[-1], -1, -1)`; the two `-1` literals are `size_type`
values, i.e. `2^64 - 1`. -/
def vector.rendIt [Inhabited α] (v : vector α) : vecIterator α :=
  ⟨dataZ v, -1, W - 1, W - 1⟩

/-- `parent_iterator::isEnd` (vector.h:308-311): `_size == _idx`. -/
def vecIterator.isEnd (it : vecIterator α) : Bool :=
  it.isize == it.idx

/-- `parent_iterator::operator==` (vector.h:297-300):
`(isEnd() && rhs.isEnd()) || (*_curr == *rhs._curr)` — no direction or
position information takes part. -/
def vecIterator.eqv [DecidableEq α] (a b : vecIterator α) : Bool :=
  (a.isEnd && b.isEnd) || (a.mem a.pos == b.mem b.pos)

/-- `forward_iterator::operator++` (vector.h:374-387): advance the pointer and
`_idx`. -/
def vecIterator.inc (it : vecIterator α) : vecIterator α :=
  { it with pos := it.pos + 1, idx := it.idx + 1 }

/-- `forward_iterator::operator--` (vector.h:390-403): retreat the pointer and
`_idx` (no call below ever decrements `_idx` past 0, so the unsigned wrap is
not reached). -/
def vecIterator.dec (it : vecIterator α) : vecIterator α :=
  { it with pos := it.pos - 1, idx := it.idx - 1 }

/-- `++it` applied `k` times. -/
def incN : ℕ → vecIterator α → vecIterator α
  | 0, it => it
  | k + 1, it => incN k it.inc

/-- `--it` applied `k` times. -/
def decN : ℕ → vecIterator α → vecIterator α
  | 0, it => it
  | k + 1, it => decN k it.dec

/-- `vector::get_iterator(n)` (vector.h:1249-1282): `diff = _size - n`; when
`diff < n` walk back from `end()` `diff` times, else walk forward from
`begin()` `n` times. -/
def vector.get_iterator [Inhabited α] (v : vector α) (n : ℕ) : vecIterator α :=
  let diff := v.size - n
  if diff < n then decN diff v.endIt else incN n v.beginIt

/-- Single-element `vector::insert(position, val)` (vector.h:1060-1077): with
`idx` the index under `position`, reallocate to `(size_type)(beta * _capacity)`
when `_size == _capacity`, `shift_array(1, idx)`, construct `val` at `idx`,
return `get_iterator(idx)`. -/
def vector.insertVal [Inhabited α] (v : vector α) (idx : ℕ) (val : α) :
    vector α × vecIterator α :=
  let v1 := if v.size = v.capacity then v.reallocate (betaMul v.capacity) else v
  let v2 := v1.shift_array 1 idx
  let v3 := v2.writeSlot idx val
  (v3, v3.get_iterator idx)

/-- Initializer-list `vector::insert(position, il)` (vector.h:1125-1147):
reallocate to `(size_type)(beta * (_size + n))` when `_size + n >= _capacity`,
`shift_array(n, idx)`, then `for (auto& it : il) _data[idx++] = it` — so the
`idx` handed to the final `get_iterator` call has been advanced to
`idx + il.size()`. -/
def vector.insertList [Inhabited α] (v : vector α) (idx : ℕ) (il : List α) :
    vector α × vecIterator α :=
  let n := il.length
  let v1 := if v.size + n ≥ v.capacity then v.reallocate (betaMul (v.size + n)) else v
  let v2 := v1.shift_array n idx
  let v3 := writeList il v2 idx
  (v3, v3.get_iterator (idx + n))

/-- The population loop of range `vector::insert(position, first, last)`
(vector.h:1096-1101): `for (i = idx; i < old_size; ++i) { _data[i] = *it; ++it; }`
— the bound is `old_size`, not `idx + n`; the arguments are the range (as a
list), the running position `k` of `it` in it (`*it` past the range's end is
an out-of-range read, modelled as junk), the slot `i`, and the remaining trip
count `old_size - i` of this fixed-bound loop. -/
def rangeWrite [Inhabited α] (l : List α) : ℕ → ℕ → ℕ → vector α → vector α
  | _, _, 0, v => v
  | k, i, c + 1, v => rangeWrite l (k + 1) (i + 1) c (v.writeSlot i (l.getD k default))

/-- Range `vector::insert(position, first, last)` (vector.h:1079-1104):
reallocate when `_size + n >= _capacity`, `shift_array(n, idx)`, run the
population loop over `[idx, old_size)`, return `get_iterator(idx)`. -/
def vector.insertRange [Inhabited α] (v : vector α) (idx : ℕ) (l : List α) :
    vector α × vecIterator α :=
  let n := l.length
  let old := v.size
  let v1 := if v.size + n ≥ v.capacity then v.reallocate (betaMul (v.size + n)) else v
  let v2 := v1.shift_array n idx
  let v3 := rangeWrite l 0 idx (old - idx) v2
  (v3, v3.get_iterator idx)

/-- `non_stl::circular_buffer<T, N>` (circular_buffer part of vector.h,
lines 1321-1568 of the concatenated header): the fixed block `d_container`
(`std::array<T, N>`, modelled total; only indices `< N` are ever used),
`d_head`, `d_tail`, `d_size`. -/
structure circular_buffer (α : Type) (N : ℕ) where
  container : ℕ → α
  head : ℕ
  tail : ℕ
  size : ℕ

variable {N : ℕ}

/-- The default constructor (lines 1575-1583): zeroed array,
`d_head = 0`, `d_tail = BUFFER_SIZE - 1`, `d_size = 0`. -/
def circular_buffer.init [Inhabited α] : circular_buffer α N :=
  ⟨fun _ => default, 0, N - 1, 0⟩

/-- `circular_buffer::increment_head` (lines 1874-1886): only on a non-empty
buffer, `++d_head; --d_size;` and wrap `d_head` to 0 when it reaches
`BUFFER_SIZE`. -/
def circular_buffer.increment_head (b : circular_buffer α N) : circular_buffer α N :=
  if b.size ≠ 0 then
    { b with head := if b.head + 1 = N then 0 else b.head + 1, size := b.size - 1 }
  else b

/-- `circular_buffer::increment_tail` (lines 1888-1896): `++d_tail; ++d_size;`
and wrap `d_tail` to 0 when it reaches `BUFFER_SIZE`. -/
def circular_buffer.increment_tail (b : circular_buffer α N) : circular_buffer α N :=
  { b with tail := if b.tail + 1 = N then 0 else b.tail + 1, size := b.size + 1 }

/-- `circular_buffer::push_back` (lines 1834-1842): `increment_tail()`; when
the incremented `d_size` exceeds `BUFFER_SIZE`, `increment_head()`; then
`d_container[d_tail] = val`. -/
def circular_buffer.push_back (b : circular_buffer α N) (val : α) : circular_buffer α N :=
  let b1 := b.increment_tail
  let b2 := if b1.size > N then b1.increment_head else b1
  { b2 with container := Function.update b2.container b2.tail val }

/-- `circular_buffer::pop_front` (lines 1865-1869): just `increment_head()`. -/
def circular_buffer.pop_front (b : circular_buffer α N) : circular_buffer α N :=
  b.increment_head

/-- `circular_buffer::front` (lines 1665-1669): `d_container[d_head]`. -/
def circular_buffer.front (b : circular_buffer α N) : α :=
  b.container b.head

/-- `circular_buffer::back` (lines 1677-1681): `d_container[d_tail]`. -/
def circular_buffer.back (b : circular_buffer α N) : α :=
  b.container b.tail

/-- `circular_buffer::operator[]` / `at` (lines 1637-1663):
`n += d_head; n %= BUFFER_SIZE; return d_container[n]`. -/
def circular_buffer.atIdx (b : circular_buffer α N) (n : ℕ) : α :=
  b.container ((n + b.head) % N)

/-- The buffer of capacity 5 after pushing the values `1..k` in order. -/
def bufAfter : ℕ → circular_buffer ℕ 5
  | 0 => circular_buffer.init
  | k + 1 => (bufAfter k).push_back (k + 1)

/-- `circular_buffer::myIterator` (lines 1415-1530): `offset`, the running
`index` and the direction flag `reverse` (the buffer pointer takes no part in
comparisons and is omitted). -/
structure cbIterator where
  offset : ℕ
  index : ℕ
  reverse : Bool

/-- `myIterator::operator==` (lines 1496-1501): when `comparable(other)`
(equal `reverse` flags) compare `index + offset` — a `size_type` sum, hence
modulo `2^64`; otherwise `false`. -/
def cbIterator.eqv (a b : cbIterator) : Bool :=
  if a.reverse = b.reverse then
    (a.index + a.offset) % W == (b.index + b.offset) % W
  else false

/-- `circular_buffer::end` (lines 1748-1757): `offset = d_head`,
`index = d_size`, `reverse = false`. -/
def circular_buffer.endIt (b : circular_buffer α N) : cbIterator :=
  ⟨b.head, b.size, false⟩

/-- `circular_buffer::rend` (lines 1781-1790): `offset = d_tail`,
`index = d_size`, `reverse = true`. -/
def circular_buffer.rendIt (b : circular_buffer α N) : cbIterator :=
  ⟨b.tail, b.size, true⟩

/-! Helper lemmas. -/

theorem writeSlot_size [Inhabited α] (v : vector α) (i : ℕ) (x : α) :
    (v.writeSlot i x).size = v.size := rfl

theorem writeSlot_capacity [Inhabited α] (v : vector α) (i : ℕ) (x : α) :
    (v.writeSlot i x).capacity = v.capacity := rfl

theorem writeSlot_dataAt [Inhabited α] (v : vector α) (i : ℕ) (x : α) (j : ℕ) :
    (v.writeSlot i x).dataAt j = if j = i then x else v.dataAt j := by
  simp [vector.writeSlot, vector.dataAt, vector.storageFn, Function.update_apply]

theorem reallocate_size [Inhabited α] (v : vector α) (cap : ℕ) :
    (v.reallocate cap).size = v.size := rfl

theorem reallocate_capacity [Inhabited α] (v : vector α) (cap : ℕ) :
    (v.reallocate cap).capacity = cap := rfl

theorem reallocate_dataAt_lt [Inhabited α] (v : vector α) (cap j : ℕ) (hj : j < v.size) :
    (v.reallocate cap).dataAt j = v.dataAt j := by
  simp [vector.reallocate, vector.dataAt, vector.storageFn, hj]

theorem shiftLoop_apply [Inhabited α] (n idx : ℕ) :
    ∀ (cf : ℕ) (d : ℕ → α) (j : ℕ),
      shiftLoop n idx cf d j =
        if idx ≤ cf ∧ idx + n ≤ j ∧ j ≤ cf + n then d (j - n) else d j := by
  intro cf
  induction cf with
  | zero =>
    intro d j
    simp only [shiftLoop]
    by_cases h0 : 0 < idx
    · rw [if_pos h0, if_neg (by omega)]
    · rw [if_neg h0, Function.update_apply]
      by_cases hj : j = 0 + n
      · rw [if_pos hj, if_pos ⟨by omega, by omega, by omega⟩]
        congr 1
        omega
      · rw [if_neg hj, if_neg (by omega)]
  | succ c ih =>
    intro d j
    simp only [shiftLoop]
    by_cases h1 : c + 1 < idx
    · rw [if_pos h1, if_neg (by omega)]
    · rw [if_neg h1, ih]
      by_cases hA : idx ≤ c ∧ idx + n ≤ j ∧ j ≤ c + n
      · rw [if_pos hA, Function.update_apply, if_neg (by omega),
          if_pos ⟨by omega, by omega, by omega⟩]
      · rw [if_neg hA, Function.update_apply]
        by_cases hj : j = c + 1 + n
        · rw [if_pos hj, if_pos ⟨by omega, by omega, by omega⟩]
          congr 1
          omega
        · rw [if_neg hj, if_neg (by omega)]

theorem shift_array_size [Inhabited α] (v : vector α) (n idx : ℕ) :
    (v.shift_array n idx).size = v.size + n := rfl

theorem shift_array_capacity [Inhabited α] (v : vector α) (n idx : ℕ) :
    (v.shift_array n idx).capacity = v.capacity := rfl

theorem shift_array_dataAt [Inhabited α] (v : vector α) (n idx j : ℕ) :
    (v.shift_array n idx).dataAt j =
      if idx ≤ v.size ∧ idx + n ≤ j ∧ j ≤ v.size + n then v.dataAt (j - n)
      else v.dataAt j := by
  simp only [vector.shift_array, vector.dataAt, vector.storageFn, Option.getD_some]
  exact shiftLoop_apply n idx v.size _ j

theorem incN_idx (k : ℕ) : ∀ it : vecIterator α, (incN k it).idx = it.idx + k := by
  induction k with
  | zero => intro it; rfl
  | succ m ih =>
    intro it
    show (incN m it.inc).idx = it.idx + (m + 1)
    rw [ih]
    simp [vecIterator.inc]
    omega

theorem decN_idx (k : ℕ) : ∀ it : vecIterator α, (decN k it).idx = it.idx - k := by
  induction k with
  | zero => intro it; rfl
  | succ m ih =>
    intro it
    show (decN m it.dec).idx = it.idx - (m + 1)
    rw [ih]
    simp [vecIterator.dec]
    omega

theorem get_iterator_idx [Inhabited α] (v : vector α) (n : ℕ) (hn : n ≤ v.size) :
    (v.get_iterator n).idx = n := by
  unfold vector.get_iterator
  by_cases h : v.size - n < n
  · rw [if_pos h, decN_idx]
    show v.size - (v.size - n) = n
    omega
  · rw [if_neg h, incN_idx]
    show 0 + n = n
    omega

theorem mod_two_lt {a N : ℕ} (ha : a < 2 * N) :
    a % N = if a < N then a else a - N := by
  by_cases h : a < N
  · rw [if_pos h, Nat.mod_eq_of_lt h]
  · rw [if_neg h, Nat.mod_eq_sub_mod (by omega), Nat.mod_eq_of_lt (by omega)]

theorem push_back_not_full (b : circular_buffer α N) (v : α) (h : ¬ b.size + 1 > N) :
    b.push_back v =
      { container := Function.update b.container (if b.tail + 1 = N then 0 else b.tail + 1) v
        head := b.head
        tail := if b.tail + 1 = N then 0 else b.tail + 1
        size := b.size + 1 } := by
  simp [circular_buffer.push_back, circular_buffer.increment_tail, h]

theorem push_back_overflow (b : circular_buffer α N) (v : α) (h : b.size + 1 > N) :
    b.push_back v =
      { container := Function.update b.container (if b.tail + 1 = N then 0 else b.tail + 1) v
        head := if b.head + 1 = N then 0 else b.head + 1
        tail := if b.tail + 1 = N then 0 else b.tail + 1
        size := b.size } := by
  simp [circular_buffer.push_back, circular_buffer.increment_tail,
    circular_buffer.increment_head, h]

theorem bufAfter_inv (k : ℕ) :
    (bufAfter k).size = min k 5 ∧
    (bufAfter k).head = (if k ≤ 5 then 0 else k % 5) ∧
    (bufAfter k).tail = (k + 4) % 5 ∧
    ∀ i, i < min k 5 → (bufAfter k).atIdx i = k - min k 5 + i + 1 := by
  induction k with
  | zero =>
    exact ⟨by decide, by decide, by decide, fun i hi => absurd hi (by omega)⟩
  | succ k ih =>
    obtain ⟨hs, hh, ht, hc⟩ := ih
    have hstep : bufAfter (k + 1) = (bufAfter k).push_back (k + 1) := rfl
    by_cases hk : k < 5
    · have hnot : ¬ (bufAfter k).size + 1 > 5 := by rw [hs]; omega
      have hhead : (bufAfter k).head = 0 := by rw [hh, if_pos (by omega)]
      have htail : (if (bufAfter k).tail + 1 = 5 then 0 else (bufAfter k).tail + 1) = k := by
        rw [ht]; split <;> omega
      rw [hstep, push_back_not_full _ _ hnot]
      refine ⟨?_, ?_, ?_, ?_⟩
      · show (bufAfter k).size + 1 = min (k + 1) 5
        rw [hs]; omega
      · show (bufAfter k).head = if k + 1 ≤ 5 then 0 else (k + 1) % 5
        rw [hhead, if_pos (by omega)]
      · show (if (bufAfter k).tail + 1 = 5 then 0 else (bufAfter k).tail + 1) = (k + 1 + 4) % 5
        rw [htail]; omega
      · intro i hi
        show Function.update (bufAfter k).container
            (if (bufAfter k).tail + 1 = 5 then 0 else (bufAfter k).tail + 1) (k + 1)
            ((i + (bufAfter k).head) % 5) = k + 1 - min (k + 1) 5 + i + 1
        rw [htail, hhead, Function.update_apply]
        have hidx : (i + 0) % 5 = i := by omega
        rw [hidx]
        by_cases hik : i = k
        · rw [if_pos hik]; omega
        · rw [if_neg hik]
          have hcc := hc i (by omega)
          unfold circular_buffer.atIdx at hcc
          rw [hhead, hidx] at hcc
          rw [hcc]
          omega
    · have hover : (bufAfter k).size + 1 > 5 := by rw [hs]; omega
      have hh5 : (bufAfter k).head = k % 5 := by rw [hh]; split <;> omega
      have htail : (if (bufAfter k).tail + 1 = 5 then 0 else (bufAfter k).tail + 1)
          = k % 5 := by
        rw [ht]; split <;> omega
      have hhead2 : (if (bufAfter k).head + 1 = 5 then 0 else (bufAfter k).head + 1)
          = (k + 1) % 5 := by
        rw [hh5]; split <;> omega
      rw [hstep, push_back_overflow _ _ hover]
      refine ⟨?_, ?_, ?_, ?_⟩
      · show (bufAfter k).size = min (k + 1) 5
        rw [hs]; omega
      · show (if (bufAfter k).head + 1 = 5 then 0 else (bufAfter k).head + 1)
            = if k + 1 ≤ 5 then 0 else (k + 1) % 5
        rw [hhead2, if_neg (by omega)]
      · show (if (bufAfter k).tail + 1 = 5 then 0 else (bufAfter k).tail + 1) = (k + 1 + 4) % 5
        rw [htail]; omega
      · intro i hi
        show Function.update (bufAfter k).container
            (if (bufAfter k).tail + 1 = 5 then 0 else (bufAfter k).tail + 1) (k + 1)
            ((i + (if (bufAfter k).head + 1 = 5 then 0 else (bufAfter k).head + 1)) % 5)
            = k + 1 - min (k + 1) 5 + i + 1
        rw [htail, hhead2, Function.update_apply]
        by_cases hik : (i + (k + 1) % 5) % 5 = k % 5
        · rw [if_pos hik]
          omega
        · rw [if_neg hik]
          have hcc := hc (i + 1) (by omega)
          unfold circular_buffer.atIdx at hcc
          rw [hh5] at hcc
          have hidx : (i + (k + 1) % 5) % 5 = (i + 1 + k % 5) % 5 := by omega
          rw [hidx, hcc]
          omega

theorem wrap_succ {x N : ℕ} (hx : x < N) :
    (if x + 1 = N then 0 else x + 1) = (x + 1) % N := by
  by_cases h : x + 1 = N
  · rw [if_pos h, h, Nat.mod_self]
  · rw [if_neg h, Nat.mod_eq_of_lt (by omega)]

/-- C3: on a full `circular_buffer` (`size = N`, with `head < N` and the
reachable-state relation `tail = (head + N - 1) % N`), `push_back` advances
both `tail` and `head` by one modulo `N`, keeps `size = N`, and overwrites the
slot of the oldest element (the old `head` slot) with the new value, shifting
every remaining logical position down by one; and concretely, pushing `1..k`
into a capacity-5 buffer leaves `front() = 1, back() = k` for `1 ≤ k ≤ 5` and
`front() = k - 4, back() = k` for `k > 5`. -/
theorem cb_push_full_evicts_oldest :
    (∀ (α : Type) (N : ℕ) (b : circular_buffer α N) (v : α),
        0 < N → b.head < N → b.size = N → b.tail = (b.head + N - 1) % N →
          (b.push_back v).head = (b.head + 1) % N ∧
          (b.push_back v).tail = (b.tail + 1) % N ∧
          (b.push_back v).size = N ∧
          (b.push_back v).container b.head = v ∧
          (∀ i, i < N - 1 → (b.push_back v).atIdx i = b.atIdx (i + 1)) ∧
          (b.push_back v).atIdx (N - 1) = v) ∧
    (∀ k, (1 ≤ k → k ≤ 5 → (bufAfter k).front = 1 ∧ (bufAfter k).back = k) ∧
          (5 < k → (bufAfter k).front = k - 4 ∧ (bufAfter k).back = k)) := by
  constructor
  · intro α N b v hN hh hsz htl
    have hover : b.size + 1 > N := by omega
    have htlt : b.tail < N := by rw [htl]; exact Nat.mod_lt _ hN
    have hm1 : (b.head + N - 1) % N < N := Nat.mod_lt _ hN
    have hcyc : ((b.head + N - 1) % N + 1) % N = b.head := by
      rw [mod_two_lt (show (b.head + N - 1) % N + 1 < 2 * N by omega)]
      have h2 : (b.head + N - 1) % N = if b.head + N - 1 < N then b.head + N - 1
          else b.head + N - 1 - N := mod_two_lt (by omega)
      rw [h2]
      split_ifs <;> omega
    rw [push_back_overflow _ _ hover]
    refine ⟨?_, ?_, ?_, ?_, ?_, ?_⟩
    · show (if b.head + 1 = N then 0 else b.head + 1) = (b.head + 1) % N
      exact wrap_succ hh
    · show (if b.tail + 1 = N then 0 else b.tail + 1) = (b.tail + 1) % N
      exact wrap_succ htlt
    · show b.size = N
      exact hsz
    · show Function.update b.container
          (if b.tail + 1 = N then 0 else b.tail + 1) v b.head = v
      rw [wrap_succ htlt, htl, hcyc, Function.update_same]
    · intro i hi
      show Function.update b.container
          (if b.tail + 1 = N then 0 else b.tail + 1) v
          ((i + (if b.head + 1 = N then 0 else b.head + 1)) % N) = b.atIdx (i + 1)
      rw [wrap_succ htlt, wrap_succ hh, htl, hcyc, Nat.add_mod_mod]
      have hidx : (i + (b.head + 1)) % N = (i + 1 + b.head) % N := by
        congr 1
        omega
      have hne : (i + 1 + b.head) % N ≠ b.head := by
        intro he
        rw [mod_two_lt (show i + 1 + b.head < 2 * N by omega)] at he
        split at he <;> omega
      rw [hidx, Function.update_apply, if_neg hne]
      rfl
    · show Function.update b.container
          (if b.tail + 1 = N then 0 else b.tail + 1) v
          ((N - 1 + (if b.head + 1 = N then 0 else b.head + 1)) % N) = v
      rw [wrap_succ htlt, wrap_succ hh, htl, hcyc, Nat.add_mod_mod]
      have hidx : (N - 1 + (b.head + 1)) % N = b.head := by
        have he : N - 1 + (b.head + 1) = b.head + N := by omega
        rw [he, Nat.add_mod_right, Nat.mod_eq_of_lt hh]
      rw [hidx, Function.update_same]
  · intro k
    obtain ⟨hs, hh, ht, hc⟩ := bufAfter_inv k
    constructor
    · intro h1 h5
      have hhead : (bufAfter k).head = 0 := by rw [hh, if_pos h5]
      constructor
      · show (bufAfter k).container (bufAfter k).head = 1
        have hcc := hc 0 (by omega)
        unfold circular_buffer.atIdx at hcc
        rw [hhead] at hcc
        rw [hhead]
        have hidx : ((0 : ℕ) + 0) % 5 = 0 := by omega
        rw [hidx] at hcc
        rw [hcc]
        omega
      · show (bufAfter k).container (bufAfter k).tail = k
        have hcc := hc (k - 1) (by omega)
        unfold circular_buffer.atIdx at hcc
        rw [hhead] at hcc
        rw [ht]
        have hidx : (k + 4) % 5 = (k - 1 + 0) % 5 := by omega
        rw [hidx, hcc]
        omega
    · intro h5
      have hhead : (bufAfter k).head = k % 5 := by rw [hh, if_neg (by omega)]
      constructor
      · show (bufAfter k).container (bufAfter k).head = k - 4
        have hcc := hc 0 (by omega)
        unfold circular_buffer.atIdx at hcc
        rw [hhead] at hcc
        rw [hhead]
        have hidx : k % 5 = ((0 : ℕ) + k % 5) % 5 := by omega
        rw [hidx, hcc]
        omega
      · show (bufAfter k).container (bufAfter k).tail = k
        have hcc := hc 4 (by omega)
        unfold circular_buffer.atIdx at hcc
        rw [hhead] at hcc
        rw [ht]
        have hidx : (k + 4) % 5 = (4 + k % 5) % 5 := by omega
        rw [hidx, hcc]
        omega

/-- Witness for C3 at concrete inputs: `front`/`back` after pushing `1..5`
and `1..11`, and the eviction of the oldest slot when pushing `6` into the
full five-element buffer. -/
theorem cb_push_full_evicts_oldest_witness :
    ((bufAfter 5).front = 1 ∧ (bufAfter 5).back = 5) ∧
    ((bufAfter 11).front = 7 ∧ (bufAfter 11).back = 11) ∧
    ((bufAfter 5).push_back 6).container (bufAfter 5).head = 6 := by
  refine ⟨(cb_push_full_evicts_oldest.2 5).1 (by norm_num) (by norm_num),
    (cb_push_full_evicts_oldest.2 11).2 (by norm_num), ?_⟩
  have h := cb_push_full_evicts_oldest.1 ℕ 5 (bufAfter 5) 6 (by norm_num)
    (by decide) (by decide) (by decide)
  exact h.2.2.2.1

/-- C7: `circular_buffer::pop_front` on an empty buffer (`size = 0`) is a
silent no-op — head, tail, size and every stored element are unchanged and
there is no error channel to signal on (the whole class is `noexcept`); on a
non-empty buffer it advances `head` by one modulo `N` and decrements `size`,
leaving `tail` and the stored elements untouched. -/
theorem cb_pop_front_contract :
    (∀ (α : Type) (N : ℕ) (b : circular_buffer α N), b.size = 0 → b.pop_front = b) ∧
    (∀ (α : Type) (N : ℕ) (b : circular_buffer α N), b.size ≠ 0 → b.head < N →
        b.pop_front.head = (b.head + 1) % N ∧
        b.pop_front.size = b.size - 1 ∧
        b.pop_front.tail = b.tail ∧
        b.pop_front.container = b.container) := by
  constructor
  · intro α N b h
    unfold circular_buffer.pop_front circular_buffer.increment_head
    rw [if_neg (by omega)]
  · intro α N b h hh
    unfold circular_buffer.pop_front circular_buffer.increment_head
    rw [if_pos h]
    exact ⟨wrap_succ hh, rfl, rfl, rfl⟩

/-- Witness for C7: popping the empty capacity-5 buffer changes nothing, and
popping the buffer holding `1, 2, 3` moves `head` to 1 and `size` to 2. -/
theorem cb_pop_front_contract_witness :
    (circular_buffer.init : circular_buffer ℕ 5).pop_front = circular_buffer.init ∧
    (bufAfter 3).pop_front.head = 1 ∧ (bufAfter 3).pop_front.size = 2 := by
  refine ⟨cb_pop_front_contract.1 ℕ 5 _ rfl, ?_, ?_⟩
  · have h := cb_pop_front_contract.2 ℕ 5 (bufAfter 3) (by decide) (by decide)
    rw [h.1]
    decide
  · have h := cb_pop_front_contract.2 ℕ 5 (bufAfter 3) (by decide) (by decide)
    rw [h.2.1]
    decide

/-- C1, code evaluated at the failing input: on the vector `[1, 2, 3]`
(`size = 3`), `at(5)` returns normally — `Except.ok` of the junk in slot 5 —
because the out-of-range branch of `vector::at` is empty (the throw is
commented out, vector.h:695-698).  The claim's BoundsError is never raised. -/
theorem at_out_of_range_returns_ok :
    (vector.mkList [1, 2, 3] : vector ℕ).size = 3 ∧
    (vector.mkList [1, 2, 3] : vector ℕ).at_checked 5 = Except.ok 0 :=
  ⟨rfl, rfl⟩

/-- C2, code evaluated at the failing input: `vector<int> v(0)` has
`capacity = 0 = size`, and `push_back(42)` reallocates to
`(size_type)(2.0 * 0) = 0` — capacity stays 0 (the claim promised
`ceil(2 * max(0, 1)) = 2`, strictly greater) while `size` becomes 1, so the
element is constructed at index `0 ≥ capacity`, outside the allocated
block. -/
theorem push_back_capacity_zero_no_growth :
    (vector.mkSized 0 : vector ℕ).capacity = 0 ∧
    (vector.mkSized 0 : vector ℕ).size = 0 ∧
    ((vector.mkSized 0 : vector ℕ).push_back 42).capacity = 0 ∧
    ((vector.mkSized 0 : vector ℕ).push_back 42).size = 1 :=
  ⟨rfl, rfl, rfl, rfl⟩

/-- C5, code evaluated at the failing input: `resize(5, 9)` on `[1, 2, 3]`
(size 3, capacity 6) produces `[1, 2, 9, 9, 9]` — the fill loop of
`vector::resize(n, val)` starts at `old_size - 1` (vector.h:879), so the live
element at index 2 is overwritten with 9 instead of only the newly exposed
slots `[3, 5)` being filled. -/
theorem resize_fill_clobbers_last_element :
    (vector.mkList [1, 2, 3] : vector ℕ).dataAt 2 = 3 ∧
    ((vector.mkList [1, 2, 3] : vector ℕ).resizeVal 5 9).size = 5 ∧
    ((vector.mkList [1, 2, 3] : vector ℕ).resizeVal 5 9).dataAt 0 = 1 ∧
    ((vector.mkList [1, 2, 3] : vector ℕ).resizeVal 5 9).dataAt 1 = 2 ∧
    ((vector.mkList [1, 2, 3] : vector ℕ).resizeVal 5 9).dataAt 2 = 9 ∧
    ((vector.mkList [1, 2, 3] : vector ℕ).resizeVal 5 9).dataAt 3 = 9 ∧
    ((vector.mkList [1, 2, 3] : vector ℕ).resizeVal 5 9).dataAt 4 = 9 := by
  refine ⟨rfl, rfl, rfl, rfl, rfl, rfl, rfl⟩

/-- C8: the move constructor (vector.h:586-597) leaves the source with
`size = 0`, `capacity = 0` and a null block, while the new vector reports the
source's old capacity and size and observes every slot of the transferred
block unchanged (in particular all old values, in order). -/
theorem move_ctor_transfers_all :
    ∀ (α : Type) [Inhabited α] (a : vector α),
      a.moveCtor.2.size = 0 ∧ a.moveCtor.2.capacity = 0 ∧ a.moveCtor.2.data = none ∧
      a.moveCtor.1.capacity = a.capacity ∧ a.moveCtor.1.size = a.size ∧
      ∀ i, a.moveCtor.1.dataAt i = a.dataAt i := by
  intro α _ a
  exact ⟨rfl, rfl, rfl, rfl, rfl, fun i => rfl⟩

/-- C9, code evaluated at the failing input: on a vector with `size = 3` and
`capacity = 4`, `insert` at position 0 performs `shift_array(1, 0)`, whose
first iteration copies `_data[3]` into `_data[4]` — slot index 4 equals the
capacity, i.e. one past the allocated block.  The value observed at index 4
changes from junk 0 to 8, so the insert touches storage outside the block. -/
theorem insert_shift_writes_at_capacity :
    demoSize3Cap4.size = 3 ∧
    demoSize3Cap4.capacity = 4 ∧
    demoSize3Cap4.dataAt 4 = 0 ∧
    (demoSize3Cap4.insertVal 0 9).1.dataAt 4 = 8 :=
  ⟨rfl, rfl, rfl, rfl⟩

/-- C6 counterexample: for the vector `[1, 2, 3]`, the forward sentinel
`end()` and the reverse sentinel `rend()` compare equal under
`parent_iterator::operator==` — both satisfy `isEnd()` (`_size == _idx`
holds for `3 == 3` and for `2^64-1 == 2^64-1`), and the comparison carries no
direction information at all (vector.h:297-300).  The claim says iterators of
different directions never compare equal. -/
theorem vector_end_rend_compare_equal :
    vecIterator.eqv (vector.mkList [1, 2, 3] : vector ℕ).endIt
      (vector.mkList [1, 2, 3] : vector ℕ).rendIt = true := by
  decide

/-- C6 (amended): for the `circular_buffer` iterator, two iterators with
different `reverse` flags never compare equal — in particular `end()` and
`rend()` of any buffer never do — and equality between same-direction
iterators holds exactly when the `size_type` sums `index + offset` agree
(for iterators of one traversal family, which share their `offset`, that is
exactly denoting the same logical position). -/
theorem cb_iterator_direction_equality :
    (∀ a b : cbIterator, a.reverse ≠ b.reverse → cbIterator.eqv a b = false) ∧
    (∀ a b : cbIterator, a.reverse = b.reverse →
        (cbIterator.eqv a b = true ↔
          (a.index + a.offset) % W = (b.index + b.offset) % W)) ∧
    (∀ (α : Type) (N : ℕ) (buf : circular_buffer α N),
        cbIterator.eqv buf.endIt buf.rendIt = false ∧
        cbIterator.eqv buf.rendIt buf.endIt = false) := by
  have h1 : ∀ a b : cbIterator, a.reverse ≠ b.reverse → cbIterator.eqv a b = false := by
    intro a b hab
    unfold cbIterator.eqv
    rw [if_neg hab]
  refine ⟨h1, ?_, ?_⟩
  · intro a b hab
    unfold cbIterator.eqv
    rw [if_pos hab]
    exact beq_iff_eq
  · intro α N buf
    exact ⟨h1 buf.endIt buf.rendIt (fun h => Bool.noConfusion h),
      h1 buf.rendIt buf.endIt (fun h => Bool.noConfusion h)⟩

/-- Witness for C6's amended statement at concrete iterators. -/
theorem cb_iterator_direction_equality_witness :
    cbIterator.eqv ⟨0, 0, false⟩ ⟨4, 1, true⟩ = false ∧
    (cbIterator.eqv ⟨2, 3, false⟩ ⟨5, 0, false⟩ = true ↔ (3 + 2) % W = (0 + 5) % W) ∧
    cbIterator.eqv (bufAfter 3).endIt (bufAfter 3).rendIt = false :=
  ⟨cb_iterator_direction_equality.1 _ _ (by decide),
    cb_iterator_direction_equality.2.1 _ _ rfl,
    (cb_iterator_direction_equality.2.2 ℕ 5 (bufAfter 3)).1⟩

/-- C4 counterexample: on the vector `[1, 2, 3]`, the initializer-list insert
of `{7}` at position 0 returns an iterator denoting index 1, not 0 (the
population loop advances the same `idx` that is then handed to
`get_iterator`, vector.h:1143-1146), and the range insert of `{8, 9, 10}` at
position 1 leaves slot 3 holding junk 0 instead of the third inserted value
10 (the population loop runs to `old_size`, not `idx + n`,
vector.h:1097). -/
theorem insert_range_and_list_counterexample :
    ((vector.mkList [1, 2, 3] : vector ℕ).insertList 0 [7]).2.idx ≠ 0 ∧
    ((vector.mkList [1, 2, 3] : vector ℕ).insertRange 1 [8, 9, 10]).1.dataAt 3 ≠ 10 := by
  decide

/-- C4 (amended): the single-value form of `insert` is correct — for
`i ≤ length`, the result has length `L + 1`, slots `[0, i)` are unchanged,
slot `i` holds the inserted value, the old elements of `[i, L)` sit at
`[i + 1, L + 1)`, and the returned iterator denotes index `i`; in particular
inserting 7 at position 0 of `[1, 2, 3]` yields `[7, 1, 2, 3]` with size 4.
(The range form instead writes `L - i` slots from the range, and the list
form returns an iterator denoting `i + d`; see the counterexample.) -/
theorem insert_single_correct :
    (∀ (α : Type) [Inhabited α] (v : vector α) (i : ℕ) (val : α),
        i ≤ v.size →
          (v.insertVal i val).1.size = v.size + 1 ∧
          (∀ j, j < i → (v.insertVal i val).1.dataAt j = v.dataAt j) ∧
          (v.insertVal i val).1.dataAt i = val ∧
          (∀ j, i ≤ j → j < v.size →
            (v.insertVal i val).1.dataAt (j + 1) = v.dataAt j) ∧
          (v.insertVal i val).2.idx = i) ∧
    (((vector.mkList [1, 2, 3] : vector ℕ).insertVal 0 7).1.size = 4 ∧
     ((vector.mkList [1, 2, 3] : vector ℕ).insertVal 0 7).1.dataAt 0 = 7 ∧
     ((vector.mkList [1, 2, 3] : vector ℕ).insertVal 0 7).1.dataAt 1 = 1 ∧
     ((vector.mkList [1, 2, 3] : vector ℕ).insertVal 0 7).1.dataAt 2 = 2 ∧
     ((vector.mkList [1, 2, 3] : vector ℕ).insertVal 0 7).1.dataAt 3 = 3) := by
  constructor
  · intro α _ v i val hi
    have h1 : (v.insertVal i val).1 =
        ((if v.size = v.capacity then v.reallocate (betaMul v.capacity) else v).shift_array
          1 i).writeSlot i val := rfl
    have h2 : (v.insertVal i val).2 =
        (((if v.size = v.capacity then v.reallocate (betaMul v.capacity) else v).shift_array
          1 i).writeSlot i val).get_iterator i := rfl
    have hvv_size :
        (if v.size = v.capacity then v.reallocate (betaMul v.capacity) else v).size
          = v.size := by
      split <;> rfl
    have hvv_data : ∀ j, j < v.size →
        (if v.size = v.capacity then v.reallocate (betaMul v.capacity) else v).dataAt j
          = v.dataAt j := by
      intro j hj
      split
      · exact reallocate_dataAt_lt _ _ _ hj
      · rfl
    refine ⟨?_, ?_, ?_, ?_, ?_⟩
    · rw [h1, writeSlot_size, shift_array_size, hvv_size]
    · intro j hj
      rw [h1, writeSlot_dataAt, if_neg (by omega), shift_array_dataAt,
        if_neg (by intro hcon; omega)]
      exact hvv_data j (by omega)
    · rw [h1, writeSlot_dataAt, if_pos rfl]
    · intro j hij hjs
      rw [h1, writeSlot_dataAt, if_neg (by omega), shift_array_dataAt,
        if_pos ⟨by rw [hvv_size]; omega, by omega, by rw [hvv_size]; omega⟩,
        Nat.add_sub_cancel]
      exact hvv_data j hjs
    · rw [h2]
      refine get_iterator_idx _ i ?_
      rw [writeSlot_size, shift_array_size, hvv_size]
      omega
  · exact ⟨rfl, rfl, rfl, rfl, rfl⟩

/-- Witness for C4's amended statement: inserting 9 at index 1 of `[4, 5]`. -/
theorem insert_single_correct_witness :
    ((vector.mkList [4, 5] : vector ℕ).insertVal 1 9).1.size = 3 ∧
    ((vector.mkList [4, 5] : vector ℕ).insertVal 1 9).1.dataAt 1 = 9 ∧
    ((vector.mkList [4, 5] : vector ℕ).insertVal 1 9).2.idx = 1 := by
  have h := insert_single_correct.1 ℕ (vector.mkList [4, 5]) 1 9 (by decide)
  exact ⟨h.1, h.2.2.1, h.2.2.2.2⟩

theorem constructN_size [Inhabited α] (val : α) :
    ∀ (k : ℕ) (v : vector α) (i : ℕ), (constructN val k v i).size = v.size := by
  intro k
  induction k with
  | zero => intro v i; rfl
  | succ m ih =>
    intro v i
    show (constructN val m (v.writeSlot i val) (i + 1)).size = v.size
    rw [ih]
    rfl

theorem constructN_capacity [Inhabited α] (val : α) :
    ∀ (k : ℕ) (v : vector α) (i : ℕ), (constructN val k v i).capacity = v.capacity := by
  intro k
  induction k with
  | zero => intro v i; rfl
  | succ m ih =>
    intro v i
    show (constructN val m (v.writeSlot i val) (i + 1)).capacity = v.capacity
    rw [ih]
    rfl

theorem writeList_size [Inhabited α] :
    ∀ (l : List α) (v : vector α) (i : ℕ), (writeList l v i).size = v.size := by
  intro l
  induction l with
  | nil => intro v i; rfl
  | cons x xs ih =>
    intro v i
    show (writeList xs (v.writeSlot i x) (i + 1)).size = v.size
    rw [ih]
    rfl

theorem writeList_capacity [Inhabited α] :
    ∀ (l : List α) (v : vector α) (i : ℕ), (writeList l v i).capacity = v.capacity := by
  intro l
  induction l with
  | nil => intro v i; rfl
  | cons x xs ih =>
    intro v i
    show (writeList xs (v.writeSlot i x) (i + 1)).capacity = v.capacity
    rw [ih]
    rfl

/-- C10: each `assign` form that installs `n ≥ 1` elements ends with
`size() = n` strictly below `capacity()`: when `n ≥` the old capacity it
reallocates to `beta * n = 2n > n`, and otherwise the old capacity already
exceeds `n`, so an assigned vector is never left exactly full. -/
theorem assign_never_full :
    ∀ (α : Type) [Inhabited α] (v : vector α) (n : ℕ) (val : α) (l : List α),
      (1 ≤ n → (v.assignFill n val).size = n ∧
        (v.assignFill n val).size < (v.assignFill n val).capacity) ∧
      (1 ≤ l.length →
        ((v.assignList l).size = l.length ∧
          (v.assignList l).size < (v.assignList l).capacity) ∧
        ((v.assignRange l).size = l.length ∧
          (v.assignRange l).size < (v.assignRange l).capacity)) := by
  intro α _ v n val l
  have hcap : ∀ m : ℕ, 1 ≤ m →
      m < (if m ≥ (v.clear).capacity then (v.clear).reallocate (betaMul m)
        else v.clear).capacity := by
    intro m hm
    by_cases hc : m ≥ (v.clear).capacity
    · rw [if_pos hc, reallocate_capacity]
      unfold betaMul
      omega
    · rw [if_neg hc]
      omega
  have hfill_size : (v.assignFill n val).size = n := by
    show (constructN val n
      { (if n ≥ (v.clear).capacity then (v.clear).reallocate (betaMul n) else v.clear) with
        size := n } 0).size = n
    rw [constructN_size]
  have hfill_cap : (v.assignFill n val).capacity =
      (if n ≥ (v.clear).capacity then (v.clear).reallocate (betaMul n)
        else v.clear).capacity := by
    show (constructN val n
      { (if n ≥ (v.clear).capacity then (v.clear).reallocate (betaMul n) else v.clear) with
        size := n } 0).capacity = _
    rw [constructN_capacity]
  have hlist_size : (v.assignList l).size = l.length := by
    show (writeList l
      { (if l.length ≥ (v.clear).capacity then (v.clear).reallocate (betaMul l.length)
          else v.clear) with size := l.length } 0).size = l.length
    rw [writeList_size]
  have hlist_cap : (v.assignList l).capacity =
      (if l.length ≥ (v.clear).capacity then (v.clear).reallocate (betaMul l.length)
        else v.clear).capacity := by
    show (writeList l
      { (if l.length ≥ (v.clear).capacity then (v.clear).reallocate (betaMul l.length)
          else v.clear) with size := l.length } 0).capacity = _
    rw [writeList_capacity]
  have hrange_size : (v.assignRange l).size = l.length := by
    show (writeList l
      { (if l.length ≥ (v.clear).capacity then (v.clear).reallocate (betaMul l.length)
          else v.clear) with size := l.length } 0).size = l.length
    rw [writeList_size]
  have hrange_cap : (v.assignRange l).capacity =
      (if l.length ≥ (v.clear).capacity then (v.clear).reallocate (betaMul l.length)
        else v.clear).capacity := by
    show (writeList l
      { (if l.length ≥ (v.clear).capacity then (v.clear).reallocate (betaMul l.length)
          else v.clear) with size := l.length } 0).capacity = _
    rw [writeList_capacity]
  constructor
  · intro hn
    rw [hfill_size, hfill_cap]
    exact ⟨rfl, hcap n hn⟩
  · intro hl
    rw [hlist_size, hlist_cap, hrange_size, hrange_cap]
    exact ⟨⟨rfl, hcap _ hl⟩, ⟨rfl, hcap _ hl⟩⟩

/-- Witness for C10: assigning into a default-constructed vector
(capacity 10) by the fill form (3 elements) and the list form (2 elements). -/
theorem assign_never_full_witness :
    ((vector.mkDefault : vector ℕ).assignFill 3 7).size = 3 ∧
    ((vector.mkDefault : vector ℕ).assignFill 3 7).size
      < ((vector.mkDefault : vector ℕ).assignFill 3 7).capacity ∧
    ((vector.mkDefault : vector ℕ).assignList [1, 2]).size = 2 ∧
    ((vector.mkDefault : vector ℕ).assignList [1, 2]).size
      < ((vector.mkDefault : vector ℕ).assignList [1, 2]).capacity := by
  have h := assign_never_full ℕ (vector.mkDefault) 3 7 [1, 2]
  have ha := h.1 (by norm_num)
  have hb := (h.2 (by decide)).1
  exact ⟨ha.1, ha.2, hb.1, hb.2⟩

end NonSTL
